import Mathlib

/-!
Verification of the event ingestion and normalization pipeline of the
fb-analyzer post-fetcher service.  The definitions below are a shallow
embedding of `app/services/facebook_service.py` and
`app/services/queue_service.py`: Python strings become `List Char`,
JSON-optional fields become `Option`, the relational store becomes a list
of rows, and exceptions become `Except` results or `Option` values.
-/

namespace FBFetch

/-- Python strings are modelled as lists of characters. -/
abbrev Str := List Char

/-! ## Timestamp parsing model

`datetime.fromisoformat` is modelled in the strict (pre-3.11) form that the
service itself assumes: the code's colon-insertion workaround in
`facebook_service.py` (lines 154-158) exists precisely because the runtime
rejects colon-less offsets.  Accepted shapes: `YYYY-MM-DD`,
`YYYY-MM-DDTHH:MM:SS` and `YYYY-MM-DDTHH:MM:SS±HH:MM`. -/

/-- A parsed Python `datetime`: calendar fields plus an optional UTC offset
in minutes (`none` = naive datetime). -/
structure PyDatetime where
  year : Nat
  month : Nat
  day : Nat
  hour : Nat
  minute : Nat
  second : Nat
  offset : Option Int
deriving DecidableEq

/-- Numeric value of a two-digit character pair. -/
def digit2 (a b : Char) : Nat := 10 * (a.toNat - 48) + (b.toNat - 48)

/-- Numeric value of a four-digit character group. -/
def digit4 (a b c d : Char) : Nat :=
  1000 * (a.toNat - 48) + 100 * (b.toNat - 48) + 10 * (c.toNat - 48) + (d.toNat - 48)

/-- Gregorian leap-year test, as in Python's `calendar.isleap`. -/
def isLeap (y : Nat) : Bool := (y % 4 = 0 && y % 100 ≠ 0) || y % 400 = 0

/-- Days in a month, matching Python's date validation. -/
def daysInMonth (y m : Nat) : Nat :=
  if m = 2 then (if isLeap y then 29 else 28)
  else if m = 4 || m = 6 || m = 9 || m = 11 then 30
  else 31

/-- Per-position character class used by the ISO-8601 shape check. -/
inductive CharSpec where
  | dig
  | lit (c : Char)
  | sign
deriving DecidableEq

/-- Does a character satisfy a character class? -/
def specOK : CharSpec → Char → Bool
  | .dig, c => c.isDigit
  | .lit x, c => c = x
  | .sign, c => c = '+' || c = '-'

/-- A string matches a template when it has the template's length and every
character satisfies the corresponding class. -/
def matchesSpec : List CharSpec → Str → Bool
  | [], [] => true
  | s :: ss, c :: cs => specOK s c && matchesSpec ss cs
  | _, _ => false

/-- Template for `YYYY-MM-DD`. -/
def dateTpl : List CharSpec :=
  [.dig, .dig, .dig, .dig, .lit '-', .dig, .dig, .lit '-', .dig, .dig]

/-- Template for the `THH:MM:SS` time part. -/
def timeTpl : List CharSpec :=
  [.lit 'T', .dig, .dig, .lit ':', .dig, .dig, .lit ':', .dig, .dig]

/-- Template for a `±HH:MM` offset. -/
def offTpl : List CharSpec :=
  [.sign, .dig, .dig, .lit ':', .dig, .dig]

/-- Template for `YYYY-MM-DDTHH:MM:SS`. -/
def dtTpl : List CharSpec := dateTpl ++ timeTpl

/-- Template for `YYYY-MM-DDTHH:MM:SS±HH:MM`. -/
def fullTpl : List CharSpec := dateTpl ++ timeTpl ++ offTpl

/-- Calendar range checks performed by `datetime`. -/
def dateRangeOK (y mo dd : Nat) : Bool :=
  1 ≤ y && 1 ≤ mo && mo ≤ 12 && 1 ≤ dd && dd ≤ daysInMonth y mo

/-- Time-of-day range checks performed by `datetime`. -/
def timeRangeOK (hh mi ss : Nat) : Bool := hh ≤ 23 && mi ≤ 59 && ss ≤ 59

/-- Offset range checks performed by `datetime.timezone`. -/
def offRangeOK (oh om : Nat) : Bool := oh ≤ 23 && om ≤ 59

/-- Model of Python's `datetime.fromisoformat` in its strict form: the three
shapes listed above, with calendar/time/offset range validation.  Any other
input raises `ValueError`, modelled as `none`. -/
def fromisoformat : Str → Option PyDatetime
  | [a1, a2, a3, a4, a5, a6, a7, a8, a9, a10] =>
    if matchesSpec dateTpl [a1, a2, a3, a4, a5, a6, a7, a8, a9, a10]
        && dateRangeOK (digit4 a1 a2 a3 a4) (digit2 a6 a7) (digit2 a9 a10)
    then some ⟨digit4 a1 a2 a3 a4, digit2 a6 a7, digit2 a9 a10, 0, 0, 0, none⟩
    else none
  | [a1, a2, a3, a4, a5, a6, a7, a8, a9, a10, a11, a12, a13, a14, a15, a16, a17, a18, a19] =>
    if matchesSpec dtTpl
          [a1, a2, a3, a4, a5, a6, a7, a8, a9, a10, a11, a12, a13, a14, a15, a16, a17, a18, a19]
        && dateRangeOK (digit4 a1 a2 a3 a4) (digit2 a6 a7) (digit2 a9 a10)
        && timeRangeOK (digit2 a12 a13) (digit2 a15 a16) (digit2 a18 a19)
    then some ⟨digit4 a1 a2 a3 a4, digit2 a6 a7, digit2 a9 a10,
               digit2 a12 a13, digit2 a15 a16, digit2 a18 a19, none⟩
    else none
  | [a1, a2, a3, a4, a5, a6, a7, a8, a9, a10, a11, a12, a13, a14, a15, a16, a17, a18, a19,
     a20, a21, a22, a23, a24, a25] =>
    if matchesSpec fullTpl
          [a1, a2, a3, a4, a5, a6, a7, a8, a9, a10, a11, a12, a13, a14, a15, a16, a17, a18,
           a19, a20, a21, a22, a23, a24, a25]
        && dateRangeOK (digit4 a1 a2 a3 a4) (digit2 a6 a7) (digit2 a9 a10)
        && timeRangeOK (digit2 a12 a13) (digit2 a15 a16) (digit2 a18 a19)
        && offRangeOK (digit2 a21 a22) (digit2 a24 a25)
    then some ⟨digit4 a1 a2 a3 a4, digit2 a6 a7, digit2 a9 a10,
               digit2 a12 a13, digit2 a15 a16, digit2 a18 a19,
               some ((if a20 = '-' then -1 else 1) * (digit2 a21 a22 * 60 + digit2 a24 a25))⟩
    else none
  | _ => none

/-! ## The timestamp normalization of `fetch_events` (lines 144-173) -/

/-- Python `s.replace("Z", "+00:00")`: every occurrence of `Z` is replaced. -/
def replaceZ : Str → Str
  | [] => []
  | c :: cs =>
    if c = 'Z' then '+' :: '0' :: '0' :: ':' :: '0' :: '0' :: replaceZ cs
    else c :: replaceZ cs

/-- Python `s[-5:]`: the last five characters (the whole string if shorter). -/
def last5 (s : Str) : Str := s.drop (s.length - 5)

/-- Python `s.endswith("Z")`. -/
def endsWithZ (s : Str) : Bool := s.getLast? = some 'Z'

/-- The string rewriting applied to one timestamp by `fetch_events`
(lines 152-158 for `start_time`, identically 164-169 for `end_time`):
a trailing `Z` triggers a global `Z` → `+00:00` replacement; otherwise, if
the string contains a `+` and its last five characters contain no colon, a
colon is inserted before the final two characters; otherwise the string is
left as is. -/
def normalizeTimeStr (s : Str) : Str :=
  if endsWithZ s then replaceZ s
  else if s.contains '+' && !(last5 s).contains ':' then
    s.take (s.length - 5) ++ ((last5 s).take 3 ++ ':' :: (last5 s).drop 3)
  else s

/-- Normalize-then-parse for a single timestamp string, as the code performs
it with `datetime.fromisoformat`; `none` models the `ValueError` path. -/
def parseTime (s : Str) : Option PyDatetime := fromisoformat (normalizeTimeStr s)

/-- Python truthiness of an optional string (`None` and `""` are falsy). -/
def truthy : Option Str → Bool
  | none => false
  | some s => !s.isEmpty

/-- The shared `try`/`except ValueError` block around both timestamp parses
(lines 144-173).  `start_time` is parsed first; a `ValueError` there jumps to
the handler before `end_time` is ever parsed, so both components come out
absent.  A `ValueError` on `end_time` leaves the already-assigned
`start_time` value intact. -/
def parseEventTimes (st et : Option Str) : Option PyDatetime × Option PyDatetime :=
  if truthy st then
    match parseTime (st.getD []) with
    | none => (none, none)
    | some d => (some d, if truthy et then parseTime (et.getD []) else none)
  else (none, if truthy et then parseTime (et.getD []) else none)

/-! ## Raw event records and stored rows -/

/-- The `place` object of a raw Graph API event record.  The code only ever
reads `place["name"]`; the `city`/`country` data (nested under
`place["location"]` in the API payload, as exercised by the repository's unit
test) is carried here so that claims about it can be stated. -/
structure PlaceData where
  name : Option Str
  city : Option Str
  country : Option Str
deriving DecidableEq

/-- A raw event record as extracted from the `data` array of the Graph API
response (lines 133-142).  `Option` models JSON field absence; the event
`id` is always present in Graph API event objects. -/
structure RawEvent where
  id : Str
  name : Option Str
  description : Option Str
  start_time : Option Str
  end_time : Option Str
  place : Option PlaceData
  is_online : Option Bool
  attending_count : Option Int
  interested_count : Option Int
deriving DecidableEq

/-- A stored `events` row (schemas.py lines 68-91), restricted to the columns
the service reads or writes. -/
structure EventRow where
  fb_event_id : Str
  fb_page_id : Nat
  name : Str
  description : Option Str
  event_url : Str
  location : Option Str
  start_time : Option PyDatetime
  end_time : Option PyDatetime
  timezone : Option Str
  is_online : Bool
  attending_count : Int
  interested_count : Int
deriving DecidableEq

/-- `event.get("name", "Unnamed Event")` (line 136). -/
def derivedName (e : RawEvent) : Str := e.name.getD "Unnamed Event".toList

/-- `event.get("is_online", False)` (line 140). -/
def derivedIsOnline (e : RawEvent) : Bool := e.is_online.getD false

/-- `event.get("attending_count", 0)` (line 141). -/
def derivedAttending (e : RawEvent) : Int := e.attending_count.getD 0

/-- `event.get("interested_count", 0)` (line 142). -/
def derivedInterested (e : RawEvent) : Int := e.interested_count.getD 0

/-- Location extraction (lines 175-178): the stored location is the place's
`name` field alone; `city`/`country` are never read.  A record with no
`place`, or a `place` with no `name`, yields a null location. -/
def derivedLocation (e : RawEvent) : Option Str :=
  match e.place with
  | none => none
  | some p => p.name

/-- Comma-separated join of a nonempty list of parts. -/
def joinComma : Str → List Str → Str
  | x, [] => x
  | x, y :: ys => x ++ (',' :: ' ' :: joinComma y ys)

/-- Modelled from the spec (section 4.2): "Location is derived by
concatenating the place name with any city/country fields when present
(comma-separated, omitting empty parts); absence of a place yields a null
location."  This is the behaviour the repository's own unit test
(`test_fetch_events_successful`) asserts; it is NOT what the code computes. -/
def specLocation (e : RawEvent) : Option Str :=
  match e.place with
  | none => none
  | some p =>
    match ([p.name, p.city, p.country].filterMap id).filter (fun s => !s.isEmpty) with
    | [] => none
    | x :: xs => some (joinComma x xs)

/-- Synthesized event URL (line 181): fixed base plus the external id. -/
def derivedUrl (e : RawEvent) : Str := "https://facebook.com/events/".toList ++ e.id

/-- The row constructed by the insert branch (lines 186-201).  The
`timezone` column is never assigned, so it takes its null default. -/
def insertRow (pageId : Nat) (e : RawEvent) : EventRow :=
  { fb_event_id := e.id
    fb_page_id := pageId
    name := derivedName e
    description := e.description
    event_url := derivedUrl e
    location := derivedLocation e
    start_time := (parseEventTimes e.start_time e.end_time).1
    end_time := (parseEventTimes e.start_time e.end_time).2
    timezone := none
    is_online := derivedIsOnline e
    attending_count := derivedAttending e
    interested_count := derivedInterested e }

/-- The update branch (lines 202-212): every mutable field is overwritten
with the freshly derived value; `fb_event_id`, `fb_page_id` and `timezone`
are not assigned and keep their stored values. -/
def updateRow (e : RawEvent) (r : EventRow) : EventRow :=
  { r with
    name := derivedName e
    description := e.description
    event_url := derivedUrl e
    location := derivedLocation e
    start_time := (parseEventTimes e.start_time e.end_time).1
    end_time := (parseEventTimes e.start_time e.end_time).2
    is_online := derivedIsOnline e
    attending_count := derivedAttending e
    interested_count := derivedInterested e }

/-- `db.query(EventModel).filter(EventModel.fb_event_id == fb_event_id).first()`
(line 184) over the list-of-rows store. -/
def findEvent (store : List EventRow) (key : Str) : Option EventRow :=
  store.find? (fun r => r.fb_event_id == key)

/-- In-place mutation of the row returned by `.first()`: the first row with
the given external id is replaced by its updated image. -/
def updateFirst (key : Str) (f : EventRow → EventRow) : List EventRow → List EventRow
  | [] => []
  | r :: rs => if r.fb_event_id == key then f r :: rs else r :: updateFirst key f rs

/-- The per-record upsert body of `fetch_events` (lines 183-217): look up by
external id, insert a new row if absent, otherwise overwrite the existing
row; the finalized row is also the element appended to the returned list. -/
def processEvent (pageId : Nat) (store : List EventRow) (e : RawEvent) :
    EventRow × List EventRow :=
  match findEvent store e.id with
  | none => (insertRow pageId e, store ++ [insertRow pageId e])
  | some r => (updateRow e r, updateFirst e.id (updateRow e) store)

/-! ## fetch_events (lines 117-222) -/

/-- Outcome of the single Graph API call plus JSON decoding:
transport failure (`httpx` raises during `client.get`), a non-success status
(`raise_for_status` raises `httpx.HTTPStatusError`), a body that is not
valid JSON (`response.json()` raises `json.JSONDecodeError`), or a decoded
payload whose `data` array holds the raw event records
(`event_data.get("data", [])`). -/
inductive FetchOutcome where
  | transportError
  | httpStatusError
  | invalidJson
  | payload (data : List RawEvent)
deriving DecidableEq

/-- An exception escaping `fetch_events` to its caller. -/
inductive PyError where
  | jsonDecodeError
deriving DecidableEq

/-- `min(limit, self.max_events_per_page)` (line 126): the event count put in
the request URL. -/
def clampedLimit (requested ceiling : Nat) : Nat := min requested ceiling

/-- One iteration of the `for event in event_data.get("data", [])` loop:
upsert the record against the store and append the finalized row to the
result list. -/
def ingestStep (pageId : Nat) (acc : List EventRow × List EventRow) (e : RawEvent) :
    List EventRow × List EventRow :=
  (acc.1 ++ [(processEvent pageId acc.2 e).1], (processEvent pageId acc.2 e).2)

/-- `FacebookService.fetch_events` (lines 117-222).  `source` maps the
requested count to the outcome of the Graph API call; the `try`/`except
httpx.HTTPError` block catches transport and status errors (returning the
events gathered so far — the empty list — with the store untouched) but NOT
the `json.JSONDecodeError` of an unparseable body, which propagates.
Returns the response list and the resulting store. -/
def fetch_events (ceiling : Nat) (source : Nat → FetchOutcome)
    (store : List EventRow) (pageId requested : Nat) :
    Except PyError (List EventRow × List EventRow) :=
  match source (clampedLimit requested ceiling) with
  | .transportError => .ok ([], store)
  | .httpStatusError => .ok ([], store)
  | .invalidJson => .error .jsonDecodeError
  | .payload data => .ok (data.foldl (ingestStep pageId) ([], store))

/-! ## add_page (lines 44-86) -/

/-- A stored `pages` row (schemas.py lines 49-62), restricted to the columns
the service reads or writes. -/
structure PageRow where
  fb_page_id : Str
  name : Option Str
  description : Option Str
  page_url : Option Str
  is_active : Bool
deriving DecidableEq

/-- The `PageCreate` input model (models.py lines 53-61). -/
structure PageCreate where
  fb_page_id : Str
  name : Option Str
  description : Option Str
  page_url : Option Str
deriving DecidableEq

/-- The page-info JSON returned by the Graph API lookup (fields
`name,description,link`). -/
structure PageInfo where
  name : Option Str
  description : Option Str
  link : Option Str
deriving DecidableEq

/-- Python truthiness test `not page.field` for an optional string. -/
def pyFalsy : Option Str → Bool
  | none => true
  | some s => s.isEmpty

/-- `FacebookService.add_page` (lines 44-86).  `info` is the outcome of the
Graph API page lookup (`Except.error` models a caught `httpx.HTTPError`).
Returns the resulting page, the resulting store, and the number of external
calls issued. -/
def add_page (store : List PageRow) (info : Except Unit PageInfo) (p : PageCreate) :
    PageRow × List PageRow × Nat :=
  match store.find? (fun r => r.fb_page_id == p.fb_page_id) with
  | some r => (r, store, 0)
  | none =>
    let p1 :=
      match info with
      | .error _ => p
      | .ok fi =>
        { p with
          name := if pyFalsy p.name && fi.name.isSome then fi.name else p.name
          description :=
            if pyFalsy p.description && fi.description.isSome then fi.description
            else p.description
          page_url := if pyFalsy p.page_url && fi.link.isSome then fi.link else p.page_url }
    let row : PageRow :=
      { fb_page_id := p1.fb_page_id
        name := p1.name
        description := p1.description
        page_url := if pyFalsy p1.page_url then none else p1.page_url
        is_active := true }
    (row, store ++ [row], 1)

/-! ## queue_events_for_analysis (queue_service.py lines 31-48) -/

/-- `QueueService.queue_events_for_analysis`.  `conn` is the redis handle
(`none` when the constructor failed to connect), holding the
`events_to_analyze` list; `lpush` prepends.  `pushOk` models whether the
transport is reachable when a push is actually attempted; with an empty id
list the loop body never runs, so no transport error can arise.  Returns the
boolean result and the resulting queue state. -/
def queue_events_for_analysis (conn : Option (List Int)) (pushOk : Bool)
    (ids : List Int) : Bool × Option (List Int) :=
  match conn with
  | none => (false, none)
  | some q =>
    if ids.isEmpty then (true, some q)
    else if pushOk then (true, some (ids.foldl (fun acc i => i :: acc) q))
    else (false, some q)

/-! ## Structural facts about the parser and the `Z` replacement -/

/-- Every character of a string matching a template satisfies one of the
template's character classes. -/
theorem matchesSpec_mem {ss : List CharSpec} {cs : Str} (h : matchesSpec ss cs = true)
    {c : Char} (hc : c ∈ cs) : ∃ s ∈ ss, specOK s c = true := by
  induction ss generalizing cs with
  | nil =>
    cases cs with
    | nil => simp at hc
    | cons c0 cs0 => simp [matchesSpec] at h
  | cons s0 ss0 ih =>
    cases cs with
    | nil => simp [matchesSpec] at h
    | cons c0 cs0 =>
      rw [matchesSpec, Bool.and_eq_true] at h
      rcases List.mem_cons.mp hc with rfl | hmem
      · exact ⟨s0, List.mem_cons_self s0 ss0, h.1⟩
      · obtain ⟨s1, hs1, hok⟩ := ih h.2 hmem
        exact ⟨s1, List.mem_cons_of_mem s0 hs1, hok⟩

/-- A string matching a template contains a character at most as often as
the template has classes that admit it. -/
theorem matchesSpec_count {ss : List CharSpec} {cs : Str} (h : matchesSpec ss cs = true)
    (c : Char) : cs.count c ≤ ss.countP (fun s => specOK s c) := by
  induction ss generalizing cs with
  | nil =>
    cases cs with
    | nil => simp
    | cons c0 cs0 => simp [matchesSpec] at h
  | cons s0 ss0 ih =>
    cases cs with
    | nil => simp [matchesSpec] at h
    | cons c0 cs0 =>
      rw [matchesSpec, Bool.and_eq_true] at h
      have hik := ih h.2
      rw [List.count_cons, List.countP_cons]
      by_cases hc0 : c0 = c
      · subst hc0
        have : specOK s0 c0 = true := h.1
        simp [this]
        omega
      · have hbeq : (c0 == c) = false := by
          exact beq_eq_false_iff_ne.mpr hc0
        simp [hbeq]
        split <;> omega

/-- Strings accepted by the parser contain no `Z` and at most one `+`. -/
theorem fromiso_char_facts {cs : Str} {d : PyDatetime}
    (h : fromisoformat cs = some d) : 'Z' ∉ cs ∧ cs.count '+' ≤ 1 := by
  unfold fromisoformat at h
  split at h
  · rename_i a1 a2 a3 a4 a5 a6 a7 a8 a9 a10
    split at h
    · rename_i hg
      rw [Bool.and_eq_true] at hg
      have hm := hg.1
      constructor
      · intro hmem
        obtain ⟨s, hs, hok⟩ := matchesSpec_mem hm hmem
        have hbad : ∀ s ∈ dateTpl, specOK s 'Z' = false := by decide
        rw [hbad s hs] at hok
        cases hok
      · calc List.count '+' _ ≤ dateTpl.countP (fun s => specOK s '+') :=
              matchesSpec_count hm '+'
          _ ≤ 1 := by decide
    · cases h
  · rename_i a1 a2 a3 a4 a5 a6 a7 a8 a9 a10 a11 a12 a13 a14 a15 a16 a17 a18 a19
    split at h
    · rename_i hg
      rw [Bool.and_eq_true, Bool.and_eq_true] at hg
      have hm := hg.1.1
      constructor
      · intro hmem
        obtain ⟨s, hs, hok⟩ := matchesSpec_mem hm hmem
        have hbad : ∀ s ∈ dtTpl, specOK s 'Z' = false := by decide
        rw [hbad s hs] at hok
        cases hok
      · calc List.count '+' _ ≤ dtTpl.countP (fun s => specOK s '+') :=
              matchesSpec_count hm '+'
          _ ≤ 1 := by decide
    · cases h
  · rename_i a1 a2 a3 a4 a5 a6 a7 a8 a9 a10 a11 a12 a13 a14 a15 a16 a17 a18 a19 a20 a21
      a22 a23 a24 a25
    split at h
    · rename_i hg
      rw [Bool.and_eq_true, Bool.and_eq_true, Bool.and_eq_true] at hg
      have hm := hg.1.1.1
      constructor
      · intro hmem
        obtain ⟨s, hs, hok⟩ := matchesSpec_mem hm hmem
        have hbad : ∀ s ∈ fullTpl, specOK s 'Z' = false := by decide
        rw [hbad s hs] at hok
        cases hok
      · calc List.count '+' _ ≤ fullTpl.countP (fun s => specOK s '+') :=
              matchesSpec_count hm '+'
          _ ≤ 1 := by decide
    · cases h
  · cases h

/-- A string containing `Z` is rejected by the parser. -/
theorem fromiso_none_of_mem_Z {cs : Str} (h : 'Z' ∈ cs) : fromisoformat cs = none := by
  cases hfi : fromisoformat cs with
  | none => rfl
  | some d => exact absurd h (fromiso_char_facts hfi).1

/-- A string with two or more `+` characters is rejected by the parser. -/
theorem fromiso_none_of_two_plus {cs : Str} (h : 2 ≤ cs.count '+') :
    fromisoformat cs = none := by
  cases hfi : fromisoformat cs with
  | none => rfl
  | some d => exact absurd (fromiso_char_facts hfi).2 (by omega)

/-- `replaceZ` distributes over append. -/
theorem replaceZ_append (l1 l2 : Str) :
    replaceZ (l1 ++ l2) = replaceZ l1 ++ replaceZ l2 := by
  induction l1 with
  | nil => simp [replaceZ]
  | cons c cs ih =>
    by_cases hc : c = 'Z' <;> simp [replaceZ, hc, ih]

/-- `replaceZ` is the identity on strings without `Z`. -/
theorem replaceZ_of_not_mem {l : Str} (h : 'Z' ∉ l) : replaceZ l = l := by
  induction l with
  | nil => rfl
  | cons c cs ih =>
    have hc : c ≠ 'Z' := fun hcz => h (hcz ▸ List.mem_cons_self c cs)
    have hcs : 'Z' ∉ cs := fun hm => h (List.mem_cons_of_mem c hm)
    simp [replaceZ, hc, ih hcs]

/-- Each `Z` replaced contributes exactly one `+` to the output. -/
theorem replaceZ_count_plus (l : Str) :
    (replaceZ l).count '+' = l.count '+' + l.count 'Z' := by
  induction l with
  | nil => simp [replaceZ]
  | cons c cs ih =>
    by_cases hc : c = 'Z'
    · subst hc
      simp [replaceZ, List.count_cons, ih]
      omega
    · have h1 : (c == 'Z') = false := beq_eq_false_iff_ne.mpr hc
      simp [replaceZ, hc, List.count_cons, ih, h1]
      omega

/-! ## Store lemmas for the upsert engine -/

/-- Lookup misses on a store holding no row with the key. -/
theorem findEvent_fresh {store : List EventRow} {key : Str}
    (h : ∀ r ∈ store, r.fb_event_id ≠ key) : findEvent store key = none := by
  induction store with
  | nil => rfl
  | cons r rs ih =>
    have h1 : (r.fb_event_id == key) = false :=
      beq_eq_false_iff_ne.mpr (h r (List.mem_cons_self r rs))
    have h2 := ih (fun q hq => h q (List.mem_cons_of_mem r hq))
    rw [findEvent] at h2 ⊢
    rw [List.find?_cons, h1]
    exact h2

/-- Lookup on a fresh store extended with one matching row finds that row. -/
theorem findEvent_append_self {store : List EventRow} {key : Str} {row : EventRow}
    (h : ∀ r ∈ store, r.fb_event_id ≠ key) (hrow : row.fb_event_id = key) :
    findEvent (store ++ [row]) key = some row := by
  induction store with
  | nil =>
    rw [findEvent, List.nil_append, List.find?_cons, beq_iff_eq.mpr hrow]
  | cons r rs ih =>
    have h1 : (r.fb_event_id == key) = false :=
      beq_eq_false_iff_ne.mpr (h r (List.mem_cons_self r rs))
    have h2 := ih (fun q hq => h q (List.mem_cons_of_mem r hq))
    rw [findEvent] at h2 ⊢
    rw [List.cons_append, List.find?_cons, h1]
    exact h2

/-- Updating the only matching row of a fresh store rewrites just that row. -/
theorem updateFirst_append_self {store : List EventRow} {key : Str} {row : EventRow}
    (f : EventRow → EventRow)
    (h : ∀ r ∈ store, r.fb_event_id ≠ key) (hrow : row.fb_event_id = key) :
    updateFirst key f (store ++ [row]) = store ++ [f row] := by
  induction store with
  | nil =>
    rw [List.nil_append, updateFirst, if_pos (beq_iff_eq.mpr hrow), List.nil_append]
  | cons r rs ih =>
    have h1 : (r.fb_event_id == key) = false :=
      beq_eq_false_iff_ne.mpr (h r (List.mem_cons_self r rs))
    have h2 := ih (fun q hq => h q (List.mem_cons_of_mem r hq))
    rw [List.cons_append, updateFirst, h1]
    simp only [Bool.false_eq_true, if_false, List.cons_append]
    rw [h2]

/-- Filtering a fresh store extended with one matching row keeps only it. -/
theorem filter_append_self {store : List EventRow} {key : Str} {row : EventRow}
    (h : ∀ r ∈ store, r.fb_event_id ≠ key) (hrow : row.fb_event_id = key) :
    (store ++ [row]).filter (fun r => r.fb_event_id == key) = [row] := by
  induction store with
  | nil => simp [List.filter, beq_iff_eq.mpr hrow]
  | cons r rs ih =>
    have h1 : (r.fb_event_id == key) = false :=
      beq_eq_false_iff_ne.mpr (h r (List.mem_cons_self r rs))
    have h2 := ih (fun q hq => h q (List.mem_cons_of_mem r hq))
    rw [List.cons_append, List.filter_cons, h1]
    simp only [Bool.false_eq_true, if_false]
    exact h2

/-- Overwriting a freshly inserted row with the derived fields of a second
record with the same external id gives exactly the row the second record
would have inserted: the update branch assigns every mutable field, and the
unassigned columns (`fb_event_id`, `fb_page_id`, `timezone`) already agree. -/
theorem updateRow_insertRow (pageId : Nat) (e1 e2 : RawEvent) (hid : e1.id = e2.id) :
    updateRow e2 (insertRow pageId e1) = insertRow pageId e2 := by
  simp [updateRow, insertRow, hid]

/-- Claim C1: ingesting the same external id twice in sequence via
`fetch_events` (here: two single-record payloads `e1` then `e2` with
`e1.id = e2.id`, against a store holding no row with that id) leaves exactly
one stored row for that id, and that row's fields are the derived fields of
the second record — a full overwrite, so fields absent in the second record
are cleared.  The second run both returns and stores `insertRow pageId e2`,
which is independent of `e1`. -/
theorem fetch_events_reingest_full_overwrite (ceiling pageId lim : Nat)
    (store : List EventRow) (e1 e2 : RawEvent) (hid : e1.id = e2.id)
    (hfresh : ∀ r ∈ store, r.fb_event_id ≠ e2.id) :
    fetch_events ceiling (fun _ => FetchOutcome.payload [e1]) store pageId lim
      = Except.ok ([insertRow pageId e1], store ++ [insertRow pageId e1]) ∧
    fetch_events ceiling (fun _ => FetchOutcome.payload [e2])
        (store ++ [insertRow pageId e1]) pageId lim
      = Except.ok ([insertRow pageId e2], store ++ [insertRow pageId e2]) ∧
    (store ++ [insertRow pageId e2]).filter (fun r => r.fb_event_id == e2.id)
      = [insertRow pageId e2] := by
  have hfresh1 : ∀ r ∈ store, r.fb_event_id ≠ e1.id := by
    intro r hr
    rw [hid]
    exact hfresh r hr
  have hrow1 : (insertRow pageId e1).fb_event_id = e2.id := hid ▸ rfl
  refine ⟨?_, ?_, ?_⟩
  · rw [fetch_events]
    simp only [List.foldl_cons, List.foldl_nil, ingestStep, processEvent,
      findEvent_fresh hfresh1, List.nil_append]
  · rw [fetch_events]
    simp only [List.foldl_cons, List.foldl_nil, ingestStep, processEvent,
      findEvent_append_self hfresh hrow1, List.nil_append,
      updateFirst_append_self _ hfresh hrow1, updateRow_insertRow pageId e1 e2 hid]
  · exact filter_append_self hfresh rfl

/-- Sample raw records for the claim-C1 witness: same external id, the
second record with every optional field absent, so the overwrite clears the
first record's values. -/
def e1sample : RawEvent :=
  ⟨"777".toList, some "First Name".toList, some "First description".toList,
    some "2025-04-01T18:00:00Z".toList, some "2025-04-01T21:00:00+0300".toList,
    some ⟨some "Venue".toList, none, none⟩, some true, some 5, some 7⟩

/-- Second sample record for the claim-C1 witness. -/
def e2sample : RawEvent :=
  ⟨"777".toList, none, none, none, none, none, none, none, none⟩

/-- Witness for claim C1 at concrete records. -/
theorem fetch_events_reingest_full_overwrite_witness :
    fetch_events 100 (fun _ => FetchOutcome.payload [e1sample]) [] 1 10
      = Except.ok ([insertRow 1 e1sample], [] ++ [insertRow 1 e1sample]) ∧
    fetch_events 100 (fun _ => FetchOutcome.payload [e2sample])
        ([] ++ [insertRow 1 e1sample]) 1 10
      = Except.ok ([insertRow 1 e2sample], [] ++ [insertRow 1 e2sample]) ∧
    ([] ++ [insertRow 1 e2sample]).filter (fun r => r.fb_event_id == e2sample.id)
      = [insertRow 1 e2sample] :=
  fetch_events_reingest_full_overwrite 100 1 10 [] e1sample e2sample rfl (by simp)

/-! ## Claim C10: the timezone column -/

/-- Rows of `updateFirst` are rows of the original store or updated images
of them. -/
theorem updateFirst_mem {key : Str} {f : EventRow → EventRow} {l : List EventRow}
    {r : EventRow} (h : r ∈ updateFirst key f l) : r ∈ l ∨ ∃ q ∈ l, r = f q := by
  induction l with
  | nil => simp [updateFirst] at h
  | cons q qs ih =>
    rw [updateFirst] at h
    by_cases hq : (q.fb_event_id == key) = true
    · rw [if_pos hq] at h
      rcases List.mem_cons.mp h with rfl | hm
      · exact Or.inr ⟨q, List.mem_cons_self q qs, rfl⟩
      · exact Or.inl (List.mem_cons_of_mem q hm)
    · rw [if_neg hq] at h
      rcases List.mem_cons.mp h with rfl | hm
      · exact Or.inl (List.mem_cons_self _ _)
      · rcases ih hm with h1 | ⟨q1, hq1, hfq⟩
        · exact Or.inl (List.mem_cons_of_mem q h1)
        · exact Or.inr ⟨q1, List.mem_cons_of_mem q hq1, hfq⟩

/-- The upsert body never writes `timezone`: the finalized row and every row
of the resulting store have a null timezone whenever the incoming store
does. -/
theorem processEvent_timezone {pageId : Nat} {store : List EventRow} {e : RawEvent}
    (h : ∀ r ∈ store, r.timezone = none) :
    (processEvent pageId store e).1.timezone = none ∧
    ∀ r ∈ (processEvent pageId store e).2, r.timezone = none := by
  unfold processEvent
  cases hf : findEvent store e.id with
  | none =>
    refine ⟨rfl, ?_⟩
    intro r hr
    rcases List.mem_append.mp hr with hm | hm
    · exact h r hm
    · have := List.mem_singleton.mp hm
      subst this
      rfl
  | some q =>
    have hq : q ∈ store := List.mem_of_find?_eq_some hf
    refine ⟨?_, ?_⟩
    · show (updateRow e q).timezone = none
      rw [show (updateRow e q).timezone = q.timezone from rfl]
      exact h q hq
    · intro r hr
      rcases updateFirst_mem hr with hm | ⟨q1, hq1, hfq⟩
      · exact h r hm
      · subst hfq
        rw [show (updateRow e q1).timezone = q1.timezone from rfl]
        exact h q1 hq1

/-- The ingestion loop preserves null timezones in both accumulators. -/
theorem ingest_foldl_timezone (pageId : Nat) (data : List RawEvent)
    (acc : List EventRow × List EventRow)
    (h1 : ∀ r ∈ acc.1, r.timezone = none) (h2 : ∀ r ∈ acc.2, r.timezone = none) :
    (∀ r ∈ (data.foldl (ingestStep pageId) acc).1, r.timezone = none) ∧
    (∀ r ∈ (data.foldl (ingestStep pageId) acc).2, r.timezone = none) := by
  induction data generalizing acc with
  | nil => exact ⟨h1, h2⟩
  | cons e es ih =>
    rw [List.foldl_cons]
    refine ih _ ?_ ?_
    · intro r hr
      simp only [ingestStep] at hr
      rcases List.mem_append.mp hr with hm | hm
      · exact h1 r hm
      · have := List.mem_singleton.mp hm
        subst this
        exact (processEvent_timezone h2).1
    · intro r hr
      simp only [ingestStep] at hr
      exact (processEvent_timezone h2).2 r hr

/-- Claim C10: `fetch_events` never writes the `timezone` column: if every
stored row has a null timezone, then after any run both the resulting store
and every returned event row still have null timezones (freshly inserted
rows set it to `none` and the update branch does not assign it). -/
theorem fetch_events_timezone_never_written (ceiling : Nat) (source : Nat → FetchOutcome)
    (store : List EventRow) (pageId lim : Nat)
    (hstore : ∀ r ∈ store, r.timezone = none)
    (evs st2 : List EventRow)
    (hrun : fetch_events ceiling source store pageId lim = Except.ok (evs, st2)) :
    (∀ r ∈ st2, r.timezone = none) ∧ (∀ r ∈ evs, r.timezone = none) := by
  unfold fetch_events at hrun
  cases hsrc : source (clampedLimit lim ceiling) <;> rw [hsrc] at hrun
  case transportError =>
    rw [Except.ok.injEq, Prod.mk.injEq] at hrun
    obtain ⟨rfl, rfl⟩ := hrun
    exact ⟨hstore, by simp⟩
  case httpStatusError =>
    rw [Except.ok.injEq, Prod.mk.injEq] at hrun
    obtain ⟨rfl, rfl⟩ := hrun
    exact ⟨hstore, by simp⟩
  case invalidJson => cases hrun
  case payload data =>
    rw [Except.ok.injEq, Prod.mk.injEq] at hrun
    obtain ⟨rfl, rfl⟩ := hrun
    have := ingest_foldl_timezone pageId data ([], store) (by simp) hstore
    exact ⟨this.2, this.1⟩

/-- A minimal raw record for the claim-C10 witness. -/
def sampleRaw : RawEvent := ⟨"1".toList, none, none, none, none, none, none, none, none⟩

/-- Witness for claim C10 at a concrete run. -/
theorem fetch_events_timezone_never_written_witness :
    (∀ r ∈ [insertRow 1 sampleRaw], r.timezone = none) ∧
    (∀ r ∈ [insertRow 1 sampleRaw], r.timezone = none) :=
  fetch_events_timezone_never_written 100 (fun _ => FetchOutcome.payload [sampleRaw])
    [] 1 10 (by simp) [insertRow 1 sampleRaw] [insertRow 1 sampleRaw] rfl

/-! ## Claim C2: source failures -/

/-- Claim C2 (amended): when the Graph API call fails at the transport level
or with a non-success HTTP status, `fetch_events` catches the error
(`except httpx.HTTPError`), returns the empty list and leaves the store
unmodified. -/
theorem fetch_events_source_error_degrades (ceiling : Nat) (source : Nat → FetchOutcome)
    (store : List EventRow) (pageId requested : Nat)
    (h : source (clampedLimit requested ceiling) = FetchOutcome.transportError ∨
         source (clampedLimit requested ceiling) = FetchOutcome.httpStatusError) :
    fetch_events ceiling source store pageId requested = Except.ok ([], store) := by
  rw [fetch_events]
  rcases h with h | h <;> rw [h]

/-- Witness for claim C2 at a concrete failing source. -/
theorem fetch_events_source_error_degrades_witness :
    fetch_events 100 (fun _ => FetchOutcome.transportError) [] 1 10
      = Except.ok ([], []) :=
  fetch_events_source_error_degrades 100 (fun _ => FetchOutcome.transportError)
    [] 1 10 (Or.inl rfl)

/-- Claim C2 counterexample: a response body that is not valid JSON makes
`response.json()` raise `json.JSONDecodeError`, which is not an
`httpx.HTTPError` and therefore propagates out of `fetch_events` instead of
degrading to an empty result. -/
theorem fetch_events_bad_json_raises :
    fetch_events 100 (fun _ => FetchOutcome.invalidJson) [] 1 10
      = Except.error PyError.jsonDecodeError := rfl

/-! ## Claim C3: colon-less numeric offsets -/

/-- A digit character is not `Z`. -/
theorem isDigit_ne_Z {c : Char} (h : c.isDigit = true) : c ≠ 'Z' := by
  rintro rfl
  exact absurd h (by decide)

/-- Claim C3 (amended): for a timestamp string whose last five characters
are a `+`-signed four-digit offset `+HHMM` (no colon), the code's
normalization equals inserting a colon before the last two digits and then
parsing.  (For `-`-signed offsets the code's `'+' in s` test fails and no
colon is inserted — see the counterexample.) -/
theorem normalize_plus_offset (t : Str) (a b c d : Char)
    (ha : a.isDigit = true) (hb : b.isDigit = true) (hc : c.isDigit = true)
    (hd : d.isDigit = true) :
    parseTime (t ++ ['+', a, b, c, d])
      = fromisoformat (t ++ ['+', a, b, ':', c, d]) := by
  have hsplit : t ++ ['+', a, b, c, d] = (t ++ ['+', a, b, c]) ++ [d] := by simp
  have hne : endsWithZ (t ++ ['+', a, b, c, d]) = false := by
    rw [endsWithZ, hsplit, List.getLast?_concat]
    simp only [Option.some.injEq, decide_eq_false_iff_not]
    exact fun hdz => isDigit_ne_Z hd hdz
  have hlen : (t ++ ['+', a, b, c, d]).length - 5 = t.length := by
    simp
  have hlast : last5 (t ++ ['+', a, b, c, d]) = ['+', a, b, c, d] := by
    rw [last5, hlen, List.drop_left]
  have hplus : (t ++ ['+', a, b, c, d]).contains '+' = true := by
    simp
  have hdign : ∀ x : Char, x.isDigit = true → (':' == x) = false := by
    intro x hx
    rw [beq_eq_false_iff_ne]
    intro hh
    rw [← hh] at hx
    exact absurd hx (by decide)
  have hcolon : (['+', a, b, c, d] : Str).contains ':' = false := by
    simp only [List.contains_eq_any_beq, List.any_cons, List.any_nil, Bool.or_false]
    rw [hdign a ha, hdign b hb, hdign c hc, hdign d hd]
    decide
  have hcond : ((t ++ ['+', a, b, c, d]).contains '+'
      && !(last5 (t ++ ['+', a, b, c, d])).contains ':') = true := by
    rw [hplus, hlast, hcolon]
    rfl
  rw [parseTime, normalizeTimeStr, if_neg (by rw [hne]; exact Bool.false_ne_true),
    if_pos hcond, hlast, hlen, List.take_left]
  rfl

/-- Witness for claim C3 at the spec's own example string. -/
theorem normalize_plus_offset_witness :
    parseTime ("2025-03-15T16:00:00".toList ++ ['+', '0', '2', '0', '0'])
      = fromisoformat ("2025-03-15T16:00:00".toList ++ ['+', '0', '2', ':', '0', '0']) :=
  normalize_plus_offset "2025-03-15T16:00:00".toList '0' '2' '0' '0'
    (by decide) (by decide) (by decide) (by decide)

/-- Claim C3 counterexample: the code's shape test is `'+' in s and ':' not
in s[-5:]`, so a negative colon-less offset such as `-0500` is passed to the
parser unchanged and fails, while inserting the colon (as the claim
requires) yields a successfully parsed instant. -/
theorem normalize_negative_offset_counterexample :
    parseTime "2025-03-15T16:00:00-0500".toList = none ∧
    fromisoformat "2025-03-15T16:00:00-05:00".toList
      = some ⟨2025, 3, 15, 16, 0, 0, some (-300)⟩ ∧
    parseTime "2025-03-15T16:00:00-0500".toList
      ≠ fromisoformat "2025-03-15T16:00:00-05:00".toList :=
  ⟨by decide, by decide, by decide⟩

/-! ## Claim C4: independence of the two timestamp parses -/

/-- Claim C4 (amended): within one record, the `start_time` result never
depends on `end_time`, and a failure on `end_time` leaves the
already-assigned `start_time` value intact; but because both parses share a
single `try`/`except ValueError` block, a failure on `start_time` aborts
before `end_time` is parsed, so `end_time` also comes out absent. -/
theorem parse_times_dependency (st et : Str) (hst : st ≠ []) :
    (parseEventTimes (some st) (some et)).1 = parseTime st ∧
    ((parseTime st).isSome = true →
      (parseEventTimes (some st) (some et)).2 = parseTime et) ∧
    (parseTime st = none → (parseEventTimes (some st) (some et)).2 = none) := by
  have ht : truthy (some st) = true := by
    rw [truthy, Bool.not_eq_true']
    cases st with
    | nil => exact absurd rfl hst
    | cons c cs => rfl
  rw [parseEventTimes, if_pos ht]
  simp only [Option.getD_some]
  cases hp : parseTime st with
  | none =>
    exact ⟨rfl, fun hs => Bool.noConfusion hs, fun _ => rfl⟩
  | some d =>
    refine ⟨rfl, fun _ => ?_, fun hn => Option.noConfusion hn⟩
    cases het : truthy (some et) with
    | true => rfl
    | false =>
      rw [truthy, Bool.not_eq_false'] at het
      have hnil : et = [] := by
        cases et with
        | nil => rfl
        | cons c cs => exact Bool.noConfusion het
      subst hnil
      rfl


/-- Witness for claim C4: a valid start with an unparseable end keeps the
start instant. -/
theorem parse_times_dependency_witness :
    (parseEventTimes (some "2025-04-01T18:00:00Z".toList) (some "garbage".toList)).1
        = parseTime "2025-04-01T18:00:00Z".toList ∧
    ((parseTime "2025-04-01T18:00:00Z".toList).isSome = true →
      (parseEventTimes (some "2025-04-01T18:00:00Z".toList) (some "garbage".toList)).2
        = parseTime "garbage".toList) ∧
    (parseTime "2025-04-01T18:00:00Z".toList = none →
      (parseEventTimes (some "2025-04-01T18:00:00Z".toList) (some "garbage".toList)).2
        = none) :=
  parse_times_dependency "2025-04-01T18:00:00Z".toList "garbage".toList (by decide)

/-- Claim C4 counterexample: an unparseable start timestamp also discards a
perfectly parseable end timestamp — the end value would parse on its own,
yet both components come out absent, so the two normalizations are not
independent. -/
theorem parse_times_start_failure_blocks_end :
    parseEventTimes (some "garbage".toList) (some "2025-04-01T18:00:00Z".toList)
      = (none, none) ∧
    parseTime "2025-04-01T18:00:00Z".toList = some ⟨2025, 4, 1, 18, 0, 0, some 0⟩ :=
  ⟨by decide, by decide⟩

/-! ## Claim C5: trailing `Z` -/

/-- The replacement text Python substitutes for `Z`. -/
def utcSuffix : Str := ['+', '0', '0', ':', '0', '0']

/-- Claim C5: for every timestamp string ending in `Z`, the code's
normalization (the global `replace("Z", "+00:00")` followed by parsing) is
equivalent to substituting `+00:00` for just the trailing `Z` and then
parsing.  When `Z` occurs only at the end the two strings coincide; when a
second `Z` occurs earlier, both strings are rejected by the parser (one
still contains a `Z`, the other contains two `+` signs). -/
theorem normalize_z_suffix (s : Str) (hz : s.getLast? = some 'Z') :
    parseTime s = fromisoformat (s.dropLast ++ utcSuffix) := by
  induction s using List.reverseRecOn with
  | nil => exact Option.noConfusion hz
  | append_singleton t c _ =>
    rw [List.getLast?_concat] at hz
    have hc := Option.some.inj hz
    subst hc
    rw [List.dropLast_concat]
    have he : endsWithZ (t ++ ['Z']) = true := by
      rw [endsWithZ, List.getLast?_concat]
      rfl
    rw [parseTime, normalizeTimeStr, if_pos he, replaceZ_append]
    have hZ : replaceZ ['Z'] = utcSuffix := rfl
    rw [hZ]
    by_cases hmem : 'Z' ∈ t
    · have h1 : fromisoformat (t ++ utcSuffix) = none :=
        fromiso_none_of_mem_Z (List.mem_append_left _ hmem)
      have h2 : fromisoformat (replaceZ t ++ utcSuffix) = none := by
        apply fromiso_none_of_two_plus
        rw [List.count_append, replaceZ_count_plus]
        have hz1 : 0 < t.count 'Z' := List.count_pos_iff.mpr hmem
        have hu : utcSuffix.count '+' = 1 := by decide
        omega
      rw [h1, h2]
    · rw [replaceZ_of_not_mem hmem]

/-- Witness for claim C5 at the spec's example string. -/
theorem normalize_z_suffix_witness :
    parseTime "2025-04-01T18:00:00Z".toList
      = fromisoformat ("2025-04-01T18:00:00Z".toList.dropLast ++ utcSuffix) ∧
    parseTime "2025-04-01T18:00:00Z".toList = some ⟨2025, 4, 1, 18, 0, 0, some 0⟩ :=
  ⟨normalize_z_suffix "2025-04-01T18:00:00Z".toList (by decide), by decide⟩

/-! ## Claim C6: location derivation -/

/-- The raw event of the repository's own unit test
`test_fetch_events_successful`, whose place carries a name, a city and a
country. -/
def testEvent : RawEvent :=
  ⟨"123456789".toList, some "Test Event".toList, some "This is a test event".toList,
    some "2025-04-01T18:00:00+0000".toList, some "2025-04-01T21:00:00+0000".toList,
    some ⟨some "Test Venue".toList, some "Test City".toList, some "Test Country".toList⟩,
    some false, some 10, some 20⟩

/-- Claim C6 (code bug): the code stores only the place's `name` and never
reads the city/country data, whereas the spec — and the repository's own
unit test, which asserts `location == "Test Venue, Test City, Test Country"`
on exactly this record — requires the comma-separated concatenation. -/
theorem location_ignores_city_country :
    derivedLocation testEvent = some "Test Venue".toList ∧
    specLocation testEvent = some "Test Venue, Test City, Test Country".toList ∧
    derivedLocation testEvent ≠ specLocation testEvent :=
  ⟨by decide, by decide, by decide⟩

/-! ## Claim C7: idempotent page registration -/

/-- Claim C7: when a page with the same external id already exists in the
store, `add_page` returns that stored row unchanged, leaves the store as it
was, and issues zero external calls. -/
theorem add_page_idempotent (store : List PageRow) (info : Except Unit PageInfo)
    (p : PageCreate) (r : PageRow)
    (h : store.find? (fun q => q.fb_page_id == p.fb_page_id) = some r) :
    add_page store info p = (r, store, 0) := by
  rw [add_page.eq_def, h]

/-- A stored page for the claim-C7 witness. -/
def pageSample : PageRow :=
  ⟨"page123".toList, some "Existing".toList, none, none, true⟩

/-- Witness for claim C7 at a concrete store. -/
theorem add_page_idempotent_witness :
    add_page [pageSample] (Except.error ())
        ⟨"page123".toList, some "Other".toList, none, none⟩
      = (pageSample, [pageSample], 0) :=
  add_page_idempotent [pageSample] (Except.error ())
    ⟨"page123".toList, some "Other".toList, none, none⟩ pageSample (by decide)

/-! ## Claim C8: the fetch-size ceiling -/

/-- Claim C8: the count put in the Graph API request is
`min(limit, max_events_per_page)`: it equals `min` of the two, never exceeds
the ceiling, and `fetch_events` consults the source only at that clamped
count (two sources agreeing there produce identical runs). -/
theorem fetch_events_clamps (requested ceiling : Nat) (s1 s2 : Nat → FetchOutcome)
    (store : List EventRow) (pageId : Nat)
    (h : s1 (clampedLimit requested ceiling) = s2 (clampedLimit requested ceiling)) :
    clampedLimit requested ceiling = min requested ceiling ∧
    clampedLimit requested ceiling ≤ ceiling ∧
    fetch_events ceiling s1 store pageId requested
      = fetch_events ceiling s2 store pageId requested := by
  refine ⟨rfl, Nat.min_le_right _ _, ?_⟩
  rw [fetch_events, fetch_events, h]

/-- Witness for claim C8: a requested limit of 500 against a ceiling of 100
is clamped to 100, and only the source's behaviour at 100 matters. -/
theorem fetch_events_clamps_witness :
    clampedLimit 500 100 = min 500 100 ∧
    clampedLimit 500 100 ≤ 100 ∧
    fetch_events 100 (fun _ => FetchOutcome.payload []) [] 1 500
      = fetch_events 100
          (fun k => if k ≤ 100 then FetchOutcome.payload [] else FetchOutcome.transportError)
          [] 1 500 :=
  fetch_events_clamps 500 100 (fun _ => FetchOutcome.payload [])
    (fun k => if k ≤ 100 then FetchOutcome.payload [] else FetchOutcome.transportError)
    [] 1 (by decide)

/-! ## Claim C9: empty enqueue -/

/-- Claim C9: with a live connection, enqueueing the empty id list pushes
nothing (the loop body never runs, so no transport failure can occur either)
and returns success, regardless of transport health. -/
theorem enqueue_empty_noop (conn : Option (List Int)) (q : List Int) (pushOk : Bool)
    (h : conn = some q) :
    queue_events_for_analysis conn pushOk [] = (true, some q) := by
  subst h
  rfl

/-- Witness for claim C9 on a concrete queue. -/
theorem enqueue_empty_noop_witness :
    queue_events_for_analysis (some [5, 9]) false [] = (true, some [5, 9]) :=
  enqueue_empty_noop (some [5, 9]) [5, 9] false rfl

end FBFetch
